import Mathlib

/-!
Verification of the Hume schema converter (`src/import.py`).

The converter introspects a graph database and builds a schema document.
We embed the conversion core shallowly:

* the two introspection results become explicit input lists
  (`NodeRec`, `RelRec` from `db.schema.visualization()`, and `PropRec`
  from `db.schema.nodeTypeProperties()`);
* Python dicts become insertion-ordered association lists with
  overwrite-in-place semantics (`dinsert`);
* the class dicts built by `_make_class` become the `Class` structure,
  where the `attributes` field is an `Option` recording whether the
  dict key `attributes` is present at all;
* `uuid.uuid4()` is modelled as drawing the next value of a run-scoped
  fresh counter (the spec, section 9, states that any collision-free
  generator satisfies the identifier contract), and
  `_random_canvas_position` as an oracle `pos` indexed by the same
  draw counter;
* a raised exception (the KeyError from a failed dict lookup, called a
  ConsistencyError by the spec, or the IndexError from indexing an
  empty list) becomes an `Except` error that aborts the run.
-/

namespace HumeSchema

/-- A node-shape record from `db.schema.visualization()`: a source-local
identity (`node.id`) and a label (`node["name"]`). -/
structure NodeRec where
  id : Nat
  name : String
deriving DecidableEq

/-- A relationship-shape record from `db.schema.visualization()`: the two
endpoint node identities and names (`relation.nodes[0]`, `relation.nodes[1]`)
and the relationship type (`relation.type`). -/
structure RelRec where
  fromId : Nat
  fromName : String
  toId : Nat
  toName : String
  type : String
deriving DecidableEq

/-- A property-type record from `db.schema.nodeTypeProperties()`. -/
structure PropRec where
  nodeLabels : List String
  propertyName : String
  nodeType : String
  propertyTypes : List String
deriving DecidableEq

/-- An attribute dict as built by `collect_attributes`:
`{label: property_name, type: humeType}`. -/
structure Attribute where
  label : String
  type : String
deriving DecidableEq

/-- A class dict as built by `_make_class`. The source dict has no
`attributes` key at creation; `collect_attributes` may later set one.
`attributes = none` models the absent key. -/
structure Class where
  label : String
  canvasPosition : Nat × Nat
  icon : String
  color : String
  uuid : Nat
  attributes : Option (List Attribute)
deriving DecidableEq

/-- A relationship dict as built by `_make_rel`. -/
structure Rel where
  uuid : Nat
  start : Nat
  startLabel : String
  endLabel : String
  endId : Nat
  label : String
deriving DecidableEq

/-- The assembled schema document `{classes: ..., relationships: ...}`. -/
structure Schema where
  classes : List Class
  relationships : List Rel
deriving DecidableEq

/-- Run-aborting exceptions of the source: the KeyError of a failed dict
lookup (a ConsistencyError in the words of the spec) and the IndexError of
`property_types[0]` on an empty list. -/
inductive ConvError where
  | consistencyError
  | indexError
deriving DecidableEq

/-- Python dict insertion `m[k] = v`: overwrite in place when the key
exists (keeping its position), else append at the end. -/
def dinsert {α : Type} (m : List (String × α)) (k : String) (v : α) :
    List (String × α) :=
  match m with
  | [] => [(k, v)]
  | (k1, v1) :: rest =>
      if k1 = k then (k, v) :: rest else (k1, v1) :: dinsert rest k v

/-- Python dict lookup `m.get(k)` / `m[k]`, first match wins. -/
def dlookup {κ α : Type} [DecidableEq κ] (k : κ) : List (κ × α) → Option α
  | [] => none
  | (k1, v) :: rest => if k = k1 then some v else dlookup k rest

/-- The mutable converter state: the uuid draw counter (modelling the
`uuid.uuid4()` stream) and `self._class_uuid`, the node-identity to
synthetic-identifier table (newest binding first). -/
structure ConvState where
  counter : Nat
  class_uuid : List (Nat × Nat)
deriving DecidableEq

/-- Embeds `Converter.TYPES_MAPPING`. -/
def TYPES_MAPPING : List (String × String) :=
  [("String", "STRING"), ("Long", "NUMBER"), ("Double", "DOUBLE"),
   ("StringArray", "STRING"), ("Date", "DATE"), ("Point", "STRING"),
   ("Boolean", "BOOLEAN")]

/-- Embeds `Converter._to_hume_type`: take `property_types[0]` (an
IndexError on an empty list) and resolve it through `TYPES_MAPPING` with
default `"STRING"`. The warnings on multiple or unsupported types are
diagnostics only. -/
def to_hume_type (p : PropRec) : Except ConvError String :=
  match p.propertyTypes with
  | [] => .error .indexError
  | t :: _ => .ok ((dlookup t TYPES_MAPPING).getD "STRING")

/-- The class dict literal built by `Converter._make_class`, as a function
of the node record and the drawn identifier `cnt`. There is no
`attributes` key in the source literal, hence `attributes := none`. -/
def make_class_value (pos : Nat → Nat × Nat) (node : NodeRec) (cnt : Nat) : Class :=
  { label := node.name
    canvasPosition := pos cnt
    icon := "mdi-circle-outline"
    color := "#aaa"
    uuid := cnt
    attributes := none }

/-- Embeds `Converter._make_class`: mint a fresh identifier, record
`node.id` to identifier in `_class_uuid`, and build the class dict
(with no `attributes` key). -/
def make_class (pos : Nat → Nat × Nat) (node : NodeRec) (s : ConvState) :
    Class × ConvState :=
  (make_class_value pos node s.counter,
   { counter := s.counter + 1, class_uuid := (node.id, s.counter) :: s.class_uuid })

/-- Embeds `Converter._make_rel`: resolve both endpoints through
`self._class_uuid` (a KeyError aborts the run) and build the
relationship dict with a fresh identifier. -/
def make_rel (rel : RelRec) (s : ConvState) : Except ConvError (Rel × ConvState) :=
  match dlookup rel.fromId s.class_uuid, dlookup rel.toId s.class_uuid with
  | some su, some eu =>
      .ok ({ uuid := s.counter
             start := su
             startLabel := rel.fromName
             endLabel := rel.toName
             endId := eu
             label := rel.type },
           { s with counter := s.counter + 1 })
  | _, _ => .error .consistencyError

/-- The node half of `populate_schema`: the dict comprehension
`{node["name"]: self._make_class(node) for node in schema[nodes]}`. -/
def process_nodes (pos : Nat → Nat × Nat) (nodes : List NodeRec)
    (m : List (String × Class)) (s : ConvState) :
    List (String × Class) × ConvState :=
  match nodes with
  | [] => (m, s)
  | n :: rest =>
      let mc := make_class pos n s
      process_nodes pos rest (dinsert m n.name mc.1) mc.2

/-- The relationship half of `populate_schema`: the dict comprehension
`{rel.type: self._make_rel(rel) for rel in schema[relationships]}`. -/
def process_rels (rels : List RelRec) (m : List (String × Rel)) (s : ConvState) :
    Except ConvError (List (String × Rel) × ConvState) :=
  match rels with
  | [] => .ok (m, s)
  | r :: rest =>
      match make_rel r s with
      | .error e => .error e
      | .ok (rl, s1) => process_rels rest (dinsert m r.type rl) s1

/-- Embeds `Converter.populate_schema`: nodes first (filling
`_class_uuid`), then relationships. -/
def populate_schema (pos : Nat → Nat × Nat) (nodes : List NodeRec)
    (rels : List RelRec) (s : ConvState) :
    Except ConvError (List (String × Class) × List (String × Rel) × ConvState) :=
  let (classes, s1) := process_nodes pos nodes [] s
  match process_rels rels [] s1 with
  | .error e => .error e
  | .ok (relationships, s2) => .ok (classes, relationships, s2)

/-- The `attributes_map.setdefault(label, []).append(attr)` step of
`collect_attributes`, preserving dict insertion order of the keys. -/
def append_attr (m : List (String × List Attribute)) (k : String) (a : Attribute) :
    List (String × List Attribute) :=
  match m with
  | [] => [(k, [a])]
  | (k1, l) :: rest =>
      if k1 = k then (k1, l ++ [a]) :: rest else (k1, l) :: append_attr rest k a

/-- The first loop of `collect_attributes`: build `attributes_map` from the
property records, skipping (with a logged warning only) every record whose
`nodeLabels` has length different from one. -/
def build_attributes_map (props : List PropRec)
    (m : List (String × List Attribute)) :
    Except ConvError (List (String × List Attribute)) :=
  match props with
  | [] => .ok m
  | p :: rest =>
      match p.nodeLabels with
      | [label] =>
          match to_hume_type p with
          | .error e => .error e
          | .ok humeType =>
              build_attributes_map rest
                (append_attr m label { label := p.propertyName, type := humeType })
      | _ => build_attributes_map rest m

/-- One assignment `classes[key]["attributes"] = list(attributes)`:
`none` models the KeyError raised when `key` is not a key of `classes`. -/
def set_attributes (m : List (String × Class)) (k : String)
    (attrs : List Attribute) : Option (List (String × Class)) :=
  match m with
  | [] => none
  | (k1, c) :: rest =>
      if k1 = k then some ((k1, { c with attributes := some attrs }) :: rest)
      else
        match set_attributes rest k attrs with
        | none => none
        | some rest1 => some ((k1, c) :: rest1)

/-- The second loop of `collect_attributes`: write each collected
attribute list onto its class, aborting on an unknown label. -/
def assign_attributes (m : List (String × Class))
    (amap : List (String × List Attribute)) :
    Except ConvError (List (String × Class)) :=
  match amap with
  | [] => .ok m
  | (k, attrs) :: rest =>
      match set_attributes m k attrs with
      | none => .error .consistencyError
      | some m1 => assign_attributes m1 rest

/-- Embeds `Converter.collect_attributes`. -/
def collect_attributes (props : List PropRec) (m : List (String × Class)) :
    Except ConvError (List (String × Class)) :=
  match build_attributes_map props [] with
  | .error e => .error e
  | .ok amap => assign_attributes m amap

/-- Embeds the `Converter.__init__` pipeline: populate the schema, collect
the attributes, assemble `{classes: list(classes.values()),
relationships: list(relationships.values())}`. An error means the run
aborts with an uncaught exception and produces no output document. -/
def convert (pos : Nat → Nat × Nat) (nodes : List NodeRec) (rels : List RelRec)
    (props : List PropRec) : Except ConvError Schema :=
  match populate_schema pos nodes rels { counter := 0, class_uuid := [] } with
  | .error e => .error e
  | .ok (classes, relationships, _) =>
      match collect_attributes props classes with
      | .error e => .error e
      | .ok classes1 =>
          .ok { classes := classes1.map Prod.snd
                relationships := relationships.map Prod.snd }

/-- A fixed canvas-position oracle used for concrete runs. -/
def cpos0 : Nat → Nat × Nat := fun _ => (100, 50)

/-! ## Specification-side comparison definitions

These definitions follow the words of the spec; the theorems below compare
the pipeline built from the source against them. -/

/-- The target type enumeration of the spec (section 3 and section 8). -/
def HUME_TYPES : List String := ["STRING", "NUMBER", "DOUBLE", "DATE", "BOOLEAN"]

/-- The type a single source type resolves to: the mapping-table entry,
with fallback `"STRING"`. -/
def hume_type_of (t : String) : String :=
  (dlookup t TYPES_MAPPING).getD "STRING"

/-- The attribute list the spec promises for the class labeled `k`: one
attribute per property record naming exactly the label `k`, in record
order, typed from the first observed type; records naming zero or several
labels contribute nothing. -/
def expected_attributes (k : String) (props : List PropRec) : List Attribute :=
  props.filterMap fun p =>
    match p.nodeLabels, p.propertyTypes with
    | [l], t :: _ =>
        if l = k then some { label := p.propertyName, type := hume_type_of t } else none
    | _, _ => none

/-- The last node record bearing label `k`, paired with its position
counted from `i` (the identifier the converter mints for it). -/
def last_labeled (k : String) : List NodeRec → Nat → Option (NodeRec × Nat)
  | [], _ => none
  | n :: rest, i =>
      match last_labeled k rest (i + 1) with
      | some p => some p
      | none => if n.name = k then some (n, i) else none

/-- The last relationship record of type `k`, paired with its position
counted from `i`. -/
def last_typed (k : String) : List RelRec → Nat → Option (RelRec × Nat)
  | [], _ => none
  | r :: rest, i =>
      match last_typed k rest (i + 1) with
      | some p => some p
      | none => if r.type = k then some (r, i) else none

/-- Everything of a keyed class entry except the `attributes` field. -/
def strip_attributes (e : String × Class) :
    String × String × Nat × (Nat × Nat) × String × String :=
  (e.1, e.2.label, e.2.uuid, e.2.canvasPosition, e.2.icon, e.2.color)

/-- How `build_attributes_map` extends an accumulated attribute list. -/
def combine_attr (o : Option (List Attribute)) (l : List Attribute) :
    Option (List Attribute) :=
  match o, l with
  | none, [] => none
  | none, l => some l
  | some a, l => some (a ++ l)

/-- The keys of an association list. -/
def keys {κ α : Type} (m : List (κ × α)) : List κ := m.map Prod.fst

/-! ## Association-list lemmas -/

theorem dlookup_dinsert {α : Type} (m : List (String × α)) (k k1 : String) (v : α) :
    dlookup k1 (dinsert m k v) = if k1 = k then some v else dlookup k1 m := by
  induction m with
  | nil => simp [dinsert, dlookup]
  | cons e rest ih =>
      obtain ⟨k2, v2⟩ := e
      by_cases h2 : k2 = k
      · subst h2
        by_cases h1 : k1 = k2 <;> simp [dinsert, dlookup, h1]
      · by_cases h1 : k1 = k2
        · subst h1
          simp [dinsert, dlookup, h2, Ne.symm h2, ih]
        · simp [dinsert, dlookup, h2, h1, ih]

theorem dlookup_mem {κ α : Type} [DecidableEq κ] {m : List (κ × α)} {k : κ} {v : α}
    (h : dlookup k m = some v) : (k, v) ∈ m := by
  induction m with
  | nil => simp [dlookup] at h
  | cons e rest ih =>
      obtain ⟨k1, v1⟩ := e
      by_cases hk : k = k1
      · subst hk
        simp [dlookup] at h
        simp [h]
      · simp [dlookup, hk] at h
        exact List.mem_cons_of_mem _ (ih h)

theorem mem_keys_iff_isSome {κ α : Type} [DecidableEq κ] (m : List (κ × α)) (k : κ) :
    k ∈ keys m ↔ (dlookup k m).isSome := by
  induction m with
  | nil => simp [keys, dlookup]
  | cons e rest ih =>
      obtain ⟨k1, v1⟩ := e
      by_cases hk : k = k1
      · subst hk
        simp [keys, dlookup]
      · simp [keys, dlookup, hk] at ih ⊢
        exact ih

theorem mem_dlookup_of_nodup {κ α : Type} [DecidableEq κ] {m : List (κ × α)} {k : κ} {v : α}
    (hnd : (keys m).Nodup) (h : (k, v) ∈ m) : dlookup k m = some v := by
  induction m with
  | nil => simp at h
  | cons e rest ih =>
      obtain ⟨k1, v1⟩ := e
      rw [show keys ((k1, v1) :: rest) = k1 :: keys rest from rfl, List.nodup_cons] at hnd
      rcases List.mem_cons.mp h with h1 | h1
      · cases h1
        simp [dlookup]
      · have hk : k ≠ k1 := by
          intro hkk
          subst hkk
          exact hnd.1 (List.mem_map_of_mem Prod.fst h1)
        simp [dlookup, hk]
        exact ih hnd.2 h1

theorem keys_dinsert {α : Type} (m : List (String × α)) (k : String) (v : α) :
    keys (dinsert m k v) = if k ∈ keys m then keys m else keys m ++ [k] := by
  induction m with
  | nil => simp [dinsert, keys]
  | cons e rest ih =>
      obtain ⟨k1, v1⟩ := e
      by_cases h1 : k1 = k
      · subst h1
        simp [dinsert, keys]
      · have hd : dinsert ((k1, v1) :: rest) k v = (k1, v1) :: dinsert rest k v := by
          simp [dinsert, h1]
        rw [hd]
        by_cases h2 : k ∈ keys rest
        · simp [keys] at h2
          simp [keys, Ne.symm h1, h2] at ih ⊢
          exact ih
        · simp [keys] at h2
          simp [keys, Ne.symm h1, h2] at ih ⊢
          exact ih

theorem mem_dinsert {α : Type} {m : List (String × α)} {k : String} {v : α}
    {e : String × α} (h : e ∈ dinsert m k v) : e ∈ m ∨ e = (k, v) := by
  induction m with
  | nil => simp [dinsert] at h; simp [h]
  | cons e1 rest ih =>
      obtain ⟨k1, v1⟩ := e1
      by_cases h1 : k1 = k
      · subst h1
        simp [dinsert] at h
        rcases h with h | h
        · exact Or.inr h
        · exact Or.inl (List.mem_cons_of_mem _ h)
      · simp [dinsert, h1] at h
        rcases h with h | h
        · exact Or.inl (by simp [h])
        · rcases ih h with h2 | h2
          · exact Or.inl (List.mem_cons_of_mem _ h2)
          · exact Or.inr h2

theorem nodup_keys_dinsert {α : Type} {m : List (String × α)} (k : String) (v : α)
    (h : (keys m).Nodup) : (keys (dinsert m k v)).Nodup := by
  rw [keys_dinsert]
  by_cases hk : k ∈ keys m
  · simp [hk, h]
  · simp [hk, List.nodup_append, h]

theorem dinsert_of_not_mem {α : Type} {m : List (String × α)} {k : String} (v : α)
    (h : k ∉ keys m) : dinsert m k v = m ++ [(k, v)] := by
  induction m with
  | nil => simp [dinsert]
  | cons e rest ih =>
      obtain ⟨k1, v1⟩ := e
      simp [keys] at h ih
      simp [dinsert, Ne.symm h.1, ih h.2]

theorem length_dinsert {α : Type} (m : List (String × α)) (k : String) (v : α) :
    (dinsert m k v).length = if k ∈ keys m then m.length else m.length + 1 := by
  have h := keys_dinsert m k v
  by_cases hk : k ∈ keys m
  · simp [hk] at h ⊢
    have h1 := congrArg List.length h
    simpa [keys] using h1
  · simp [hk] at h ⊢
    have h1 := congrArg List.length h
    simpa [keys] using h1

/-! ## Lemmas about the node half of populate_schema -/

theorem process_nodes_step (pos : Nat → Nat × Nat) (n : NodeRec) (rest : List NodeRec)
    (m : List (String × Class)) (s : ConvState) :
    process_nodes pos (n :: rest) m s =
      process_nodes pos rest (dinsert m n.name (make_class pos n s).1) (make_class pos n s).2 :=
  rfl

theorem process_nodes_counter (pos : Nat → Nat × Nat) (nodes : List NodeRec)
    (m : List (String × Class)) (s : ConvState) :
    (process_nodes pos nodes m s).2.counter = s.counter + nodes.length := by
  induction nodes generalizing m s with
  | nil => simp [process_nodes]
  | cons n rest ih =>
      rw [process_nodes_step, ih]
      simp [make_class]
      omega

theorem process_nodes_class_uuid_none (pos : Nat → Nat × Nat) (nodes : List NodeRec)
    (m : List (String × Class)) (s : ConvState) (i : Nat) :
    dlookup i (process_nodes pos nodes m s).2.class_uuid = none ↔
      i ∉ nodes.map NodeRec.id ∧ dlookup i s.class_uuid = none := by
  induction nodes generalizing m s with
  | nil => simp [process_nodes]
  | cons n rest ih =>
      rw [process_nodes_step, ih]
      by_cases hi : i = n.id
      · subst hi
        simp [make_class, dlookup]
      · simp [make_class, dlookup, hi]

theorem process_nodes_keys_mem (pos : Nat → Nat × Nat) (nodes : List NodeRec)
    (m : List (String × Class)) (s : ConvState) (k : String) :
    k ∈ keys (process_nodes pos nodes m s).1 ↔
      k ∈ keys m ∨ k ∈ nodes.map NodeRec.name := by
  induction nodes generalizing m s with
  | nil => simp [process_nodes]
  | cons n rest ih =>
      rw [process_nodes_step, ih, keys_dinsert]
      by_cases h : n.name ∈ keys m
      · simp [h]
        by_cases hk : k = n.name
        · subst hk
          simp [h]
        · simp [hk]
      · simp [h, List.mem_append]
        tauto

theorem process_nodes_keys_nodup (pos : Nat → Nat × Nat) (nodes : List NodeRec)
    (m : List (String × Class)) (s : ConvState) (h : (keys m).Nodup) :
    (keys (process_nodes pos nodes m s).1).Nodup := by
  induction nodes generalizing m s with
  | nil => simpa [process_nodes] using h
  | cons n rest ih =>
      rw [process_nodes_step]
      exact ih _ _ (nodup_keys_dinsert _ _ h)

theorem process_nodes_mem (pos : Nat → Nat × Nat) (nodes : List NodeRec)
    (m : List (String × Class)) (s : ConvState) {e : String × Class}
    (he : e ∈ (process_nodes pos nodes m s).1) :
    e ∈ m ∨ ∃ n ∈ nodes, ∃ i, e = (n.name, make_class_value pos n i) := by
  induction nodes generalizing m s with
  | nil => simpa [process_nodes] using he
  | cons n rest ih =>
      rw [process_nodes_step] at he
      rcases ih _ _ he with h | h
      · rcases mem_dinsert h with h1 | h1
        · exact Or.inl h1
        · exact Or.inr ⟨n, List.mem_cons_self n rest, s.counter, h1⟩
      · obtain ⟨n1, hn1, i, hei⟩ := h
        exact Or.inr ⟨n1, List.mem_cons_of_mem _ hn1, i, hei⟩

theorem process_nodes_dlookup (pos : Nat → Nat × Nat) (nodes : List NodeRec)
    (m : List (String × Class)) (s : ConvState) (k : String) :
    dlookup k (process_nodes pos nodes m s).1 =
      match last_labeled k nodes s.counter with
      | some (n, i) => some (make_class_value pos n i)
      | none => dlookup k m := by
  induction nodes generalizing m s with
  | nil => simp [process_nodes, last_labeled]
  | cons n rest ih =>
      rw [process_nodes_step, ih]
      cases hl : last_labeled k rest (s.counter + 1) with
      | some p =>
          rw [show (make_class pos n s).2.counter = s.counter + 1 from rfl, hl]
          simp [last_labeled, hl]
      | none =>
          rw [show (make_class pos n s).2.counter = s.counter + 1 from rfl, hl,
            dlookup_dinsert]
          by_cases hk : k = n.name
          · subst hk
            simp [last_labeled, hl, make_class]
          · simp [last_labeled, hl, hk, Ne.symm hk]

theorem process_nodes_uuid_has_class (pos : Nat → Nat × Nat) (nodes : List NodeRec)
    (m : List (String × Class)) (s : ConvState)
    (hnd : (nodes.map NodeRec.name).Nodup)
    (hfresh : ∀ n ∈ nodes, n.name ∉ keys m)
    (hinv : ∀ p ∈ s.class_uuid, ∃ e ∈ m, (e : String × Class).2.uuid = (p : Nat × Nat).2) :
    ∀ p ∈ (process_nodes pos nodes m s).2.class_uuid,
      ∃ e ∈ (process_nodes pos nodes m s).1, (e : String × Class).2.uuid = (p : Nat × Nat).2 := by
  induction nodes generalizing m s with
  | nil => simpa [process_nodes] using hinv
  | cons n rest ih =>
      have hnd1 : (∀ x ∈ rest, ¬x.name = n.name) ∧ (rest.map NodeRec.name).Nodup := by
        simpa using hnd
      have hfn : n.name ∉ keys m := hfresh n (List.mem_cons_self n rest)
      have hmeq : dinsert m n.name (make_class pos n s).1 =
          m ++ [(n.name, (make_class pos n s).1)] := dinsert_of_not_mem _ hfn
      rw [process_nodes_step]
      apply ih
      · exact hnd1.2
      · intro n1 hn1
        rw [hmeq]
        have hkeq : keys (m ++ [(n.name, (make_class pos n s).1)]) = keys m ++ [n.name] := by
          simp [keys]
        rw [hkeq]
        simp
        exact ⟨hfresh n1 (List.mem_cons_of_mem _ hn1), fun he => hnd1.1 n1 hn1 he⟩
      · intro p hp
        rw [show (make_class pos n s).2.class_uuid = (n.id, s.counter) :: s.class_uuid from rfl]
          at hp
        rcases List.mem_cons.mp hp with h | h
        · subst h
          exact ⟨(n.name, (make_class pos n s).1), by rw [hmeq]; simp, rfl⟩
        · obtain ⟨e, he, hu⟩ := hinv p h
          exact ⟨e, by rw [hmeq]; exact List.mem_append_left _ he, hu⟩

/-! ## Lemmas about the relationship half of populate_schema -/

theorem make_rel_error {r : RelRec} {s : ConvState} {e : ConvError}
    (h : make_rel r s = .error e) : e = .consistencyError := by
  unfold make_rel at h
  cases hf : dlookup r.fromId s.class_uuid with
  | none =>
      rw [hf] at h
      simp at h
      exact h.symm
  | some su =>
      cases ht : dlookup r.toId s.class_uuid with
      | none =>
          rw [hf, ht] at h
          simp at h
          exact h.symm
      | some eu =>
          rw [hf, ht] at h
          simp at h

theorem make_rel_ok {r : RelRec} {s : ConvState} {rl : Rel} {s1 : ConvState}
    (h : make_rel r s = .ok (rl, s1)) :
    s1.class_uuid = s.class_uuid ∧ s1.counter = s.counter + 1 ∧ rl.uuid = s.counter ∧
      rl.label = r.type ∧ dlookup r.fromId s.class_uuid = some rl.start ∧
      dlookup r.toId s.class_uuid = some rl.endId := by
  unfold make_rel at h
  cases hf : dlookup r.fromId s.class_uuid with
  | none => rw [hf] at h; simp at h
  | some su =>
      cases ht : dlookup r.toId s.class_uuid with
      | none => rw [hf, ht] at h; simp at h
      | some eu =>
          rw [hf, ht] at h
          rw [Except.ok.injEq, Prod.mk.injEq] at h
          obtain ⟨h1, h2⟩ := h
          subst h1
          subst h2
          exact ⟨rfl, rfl, rfl, rfl, rfl, rfl⟩

theorem process_rels_error {rels : List RelRec} {m : List (String × Rel)} {s : ConvState}
    {e : ConvError} (h : process_rels rels m s = .error e) : e = .consistencyError := by
  induction rels generalizing m s with
  | nil => simp [process_rels] at h
  | cons r rest ih =>
      unfold process_rels at h
      cases hm : make_rel r s with
      | error e1 =>
          rw [hm] at h
          simp at h
          rw [← h]
          exact make_rel_error hm
      | ok p =>
          rw [hm] at h
          exact ih h

theorem process_rels_state {rels : List RelRec} {m m1 : List (String × Rel)}
    {s s2 : ConvState} (h : process_rels rels m s = .ok (m1, s2)) :
    s2.class_uuid = s.class_uuid ∧ s2.counter = s.counter + rels.length := by
  induction rels generalizing m s with
  | nil =>
      simp [process_rels] at h
      obtain ⟨h1, h2⟩ := h
      subst h1
      subst h2
      exact ⟨rfl, by simp⟩
  | cons r rest ih =>
      unfold process_rels at h
      cases hm : make_rel r s with
      | error e1 => rw [hm] at h; simp at h
      | ok p =>
          obtain ⟨rl, s1⟩ := p
          rw [hm] at h
          obtain ⟨hcu, hcnt, _⟩ := make_rel_ok hm
          obtain ⟨h1, h2⟩ := ih h
          refine ⟨by rw [h1, hcu], by rw [h2, hcnt]; simp only [List.length_cons]; omega⟩

theorem process_rels_fail {rels : List RelRec} {m : List (String × Rel)} {s : ConvState}
    (h : ∃ r ∈ rels,
      dlookup r.fromId s.class_uuid = none ∨ dlookup r.toId s.class_uuid = none) :
    process_rels rels m s = .error .consistencyError := by
  induction rels generalizing m s with
  | nil => simp at h
  | cons r0 rest ih =>
      obtain ⟨r, hr, hbad⟩ := h
      unfold process_rels
      cases hm : make_rel r0 s with
      | error e =>
          rw [make_rel_error hm]
      | ok p =>
          obtain ⟨rl, s1⟩ := p
          obtain ⟨hcu, _, _, _, hf, ht⟩ := make_rel_ok hm
          rcases List.mem_cons.mp hr with h0 | h0
          · subst h0
            rcases hbad with hb | hb
            · rw [hb] at hf; cases hf
            · rw [hb] at ht; cases ht
          · exact ih ⟨r, h0, by rw [hcu]; exact hbad⟩

/-- Both endpoint identifiers of a relationship value occur as values of
the given lookup table. -/
def rel_good (cu : List (Nat × Nat)) (rl : Rel) : Prop :=
  (∃ p ∈ cu, (p : Nat × Nat).2 = rl.start) ∧ ∃ p ∈ cu, (p : Nat × Nat).2 = rl.endId

theorem process_rels_mem_good {rels : List RelRec} {m m1 : List (String × Rel)}
    {s s2 : ConvState} (h : process_rels rels m s = .ok (m1, s2))
    (hm : ∀ e ∈ m, rel_good s.class_uuid (e : String × Rel).2) :
    ∀ e ∈ m1, rel_good s.class_uuid (e : String × Rel).2 := by
  induction rels generalizing m s with
  | nil =>
      simp [process_rels] at h
      obtain ⟨h1, h2⟩ := h
      subst h1
      subst h2
      exact hm
  | cons r rest ih =>
      unfold process_rels at h
      cases hmr : make_rel r s with
      | error e => rw [hmr] at h; simp at h
      | ok p =>
          obtain ⟨rl, s1⟩ := p
          rw [hmr] at h
          obtain ⟨hcu, _, _, _, hf, ht⟩ := make_rel_ok hmr
          rw [← hcu]
          apply ih h
          intro e he
          rcases mem_dinsert he with h1 | h1
          · rw [hcu]
            exact hm e h1
          · rw [h1, hcu]
            exact ⟨⟨(r.fromId, rl.start), dlookup_mem hf, rfl⟩,
              ⟨(r.toId, rl.endId), dlookup_mem ht, rfl⟩⟩

theorem process_rels_keys_mem {rels : List RelRec} {m m1 : List (String × Rel)}
    {s s2 : ConvState} (h : process_rels rels m s = .ok (m1, s2)) (k : String) :
    k ∈ keys m1 ↔ k ∈ keys m ∨ k ∈ rels.map RelRec.type := by
  induction rels generalizing m s with
  | nil =>
      simp [process_rels] at h
      obtain ⟨h1, h2⟩ := h
      subst h1
      subst h2
      simp
  | cons r rest ih =>
      unfold process_rels at h
      cases hmr : make_rel r s with
      | error e => rw [hmr] at h; simp at h
      | ok p =>
          obtain ⟨rl, s1⟩ := p
          rw [hmr] at h
          rw [ih h, keys_dinsert]
          by_cases hmem : r.type ∈ keys m
          · simp [hmem]
            by_cases hk : k = r.type
            · subst hk
              simp [hmem]
            · simp [hk]
          · simp [hmem, List.mem_append]
            tauto

theorem process_rels_keys_nodup {rels : List RelRec} {m m1 : List (String × Rel)}
    {s s2 : ConvState} (h : process_rels rels m s = .ok (m1, s2))
    (hnd : (keys m).Nodup) : (keys m1).Nodup := by
  induction rels generalizing m s with
  | nil =>
      simp [process_rels] at h
      obtain ⟨h1, h2⟩ := h
      subst h1
      subst h2
      exact hnd
  | cons r rest ih =>
      unfold process_rels at h
      cases hmr : make_rel r s with
      | error e => rw [hmr] at h; simp at h
      | ok p =>
          obtain ⟨rl, s1⟩ := p
          rw [hmr] at h
          exact ih h (nodup_keys_dinsert _ _ hnd)

theorem process_rels_dlookup {rels : List RelRec} {m m1 : List (String × Rel)}
    {s s2 : ConvState} (h : process_rels rels m s = .ok (m1, s2)) (k : String) :
    (last_typed k rels s.counter = none ∧ dlookup k m1 = dlookup k m) ∨
      (∃ rr i rl, last_typed k rels s.counter = some (rr, i) ∧ dlookup k m1 = some rl ∧
        rl.uuid = i ∧ rl.label = rr.type) := by
  induction rels generalizing m s with
  | nil =>
      simp [process_rels] at h
      obtain ⟨h1, h2⟩ := h
      subst h1
      subst h2
      exact Or.inl ⟨rfl, rfl⟩
  | cons r rest ih =>
      unfold process_rels at h
      cases hmr : make_rel r s with
      | error e => rw [hmr] at h; simp at h
      | ok p =>
          obtain ⟨rl0, s1⟩ := p
          rw [hmr] at h
          obtain ⟨_, hcnt, huuid, hlab, _, _⟩ := make_rel_ok hmr
          rcases ih h with ⟨hn, hd⟩ | ⟨rr, i, rl, hlt, hd, hu, hl2⟩
          · rw [hcnt] at hn
            rw [dlookup_dinsert] at hd
            by_cases hk : k = r.type
            · subst hk
              simp at hd
              exact Or.inr ⟨r, s.counter, rl0, by simp [last_typed, hn], hd, huuid, hlab⟩
            · simp [hk] at hd
              exact Or.inl ⟨by simp [last_typed, hn, Ne.symm hk], hd⟩
          · rw [hcnt] at hlt
            exact Or.inr ⟨rr, i, rl, by simp [last_typed, hlt], hd, hu, hl2⟩

/-! ## Identifier freshness -/

theorem dinsert_uuid_nodup {m : List (String × Class)} {k : String} {v : Class} {c : Nat}
    (hlt : ∀ e ∈ m, (e : String × Class).2.uuid < c) (hv : v.uuid = c)
    (hnd : (m.map (fun e => (e : String × Class).2.uuid)).Nodup) :
    ((dinsert m k v).map (fun e => (e : String × Class).2.uuid)).Nodup := by
  induction m with
  | nil => simp [dinsert]
  | cons e1 rest ih =>
      obtain ⟨k1, v1⟩ := e1
      rw [List.map_cons, List.nodup_cons] at hnd
      have hlt1 : ∀ e ∈ rest, (e : String × Class).2.uuid < c := fun e he =>
        hlt e (List.mem_cons_of_mem _ he)
      by_cases h1 : k1 = k
      · subst h1
        have hde : dinsert ((k1, v1) :: rest) k1 v = (k1, v) :: rest := by
          simp [dinsert]
        rw [hde, List.map_cons, List.nodup_cons]
        refine ⟨?_, hnd.2⟩
        intro hc
        obtain ⟨e, he, heq⟩ := List.mem_map.mp hc
        have h2 : e.2.uuid < c := hlt1 e he
        have h3 : e.2.uuid = v.uuid := heq
        rw [h3, hv] at h2
        exact Nat.lt_irrefl c h2
      · have hde : dinsert ((k1, v1) :: rest) k v = (k1, v1) :: dinsert rest k v := by
          simp [dinsert, h1]
        rw [hde, List.map_cons, List.nodup_cons]
        refine ⟨?_, ih hlt1 hnd.2⟩
        intro hc
        obtain ⟨e, he, heq⟩ := List.mem_map.mp hc
        rcases mem_dinsert he with h2 | h2
        · exact hnd.1 (List.mem_map.mpr ⟨e, h2, heq⟩)
        · have h3 : e.2.uuid = v1.uuid := heq
          rw [h2, hv] at h3
          have h4 : v1.uuid < c := hlt (k1, v1) (List.mem_cons_self _ _)
          rw [← h3] at h4
          exact Nat.lt_irrefl c h4

theorem process_nodes_uuid_nodup (pos : Nat → Nat × Nat) (nodes : List NodeRec)
    (m : List (String × Class)) (s : ConvState)
    (hlt : ∀ e ∈ m, (e : String × Class).2.uuid < s.counter)
    (hnd : (m.map (fun e => (e : String × Class).2.uuid)).Nodup) :
    ((process_nodes pos nodes m s).1.map (fun e => (e : String × Class).2.uuid)).Nodup := by
  induction nodes generalizing m s with
  | nil => simpa [process_nodes] using hnd
  | cons n rest ih =>
      rw [process_nodes_step]
      apply ih
      · intro e he
        rcases mem_dinsert he with h1 | h1
        · have := hlt e h1
          simp [make_class]
          omega
        · rw [h1]
          simp [make_class, make_class_value]
      · exact dinsert_uuid_nodup hlt rfl hnd

/-! ## The type mapping lands in the target enumeration -/

theorem hume_type_of_mem (t : String) : hume_type_of t ∈ HUME_TYPES := by
  unfold hume_type_of
  cases hl : dlookup t TYPES_MAPPING with
  | none => simp [HUME_TYPES]
  | some v =>
      have hmem := dlookup_mem hl
      simp [TYPES_MAPPING, Prod.ext_iff] at hmem
      rcases hmem with ⟨_, rfl⟩ | ⟨_, rfl⟩ | ⟨_, rfl⟩ | ⟨_, rfl⟩ | ⟨_, rfl⟩ | ⟨_, rfl⟩ |
        ⟨_, rfl⟩ <;> simp [HUME_TYPES]

/-! ## Lemmas about collect_attributes -/

theorem combine_attr_nil (o : Option (List Attribute)) : combine_attr o [] = o := by
  cases o <;> simp [combine_attr]

theorem combine_attr_some (a l : List Attribute) :
    combine_attr (some a) l = some (a ++ l) := rfl

theorem append_attr_dlookup (m : List (String × List Attribute)) (l k : String)
    (a : Attribute) :
    dlookup k (append_attr m l a) =
      if k = l then some ((dlookup l m).getD [] ++ [a]) else dlookup k m := by
  induction m with
  | nil => by_cases hk : k = l <;> simp [append_attr, dlookup, hk]
  | cons e rest ih =>
      obtain ⟨k1, l1⟩ := e
      by_cases h1 : k1 = l
      · subst h1
        by_cases hk : k = k1
        · subst hk
          simp [append_attr, dlookup]
        · simp [append_attr, dlookup, hk]
      · by_cases hk : k = k1
        · subst hk
          simp [append_attr, dlookup, h1]
        · simp [append_attr, dlookup, h1, hk, Ne.symm h1, ih]

theorem append_attr_keys (m : List (String × List Attribute)) (l : String) (a : Attribute) :
    keys (append_attr m l a) = if l ∈ keys m then keys m else keys m ++ [l] := by
  induction m with
  | nil => simp [append_attr, keys]
  | cons e rest ih =>
      obtain ⟨k1, l1⟩ := e
      by_cases h1 : k1 = l
      · subst h1
        simp [append_attr, keys]
      · have hde : append_attr ((k1, l1) :: rest) l a = (k1, l1) :: append_attr rest l a := by
          simp [append_attr, h1]
        rw [hde]
        by_cases h2 : l ∈ keys rest
        · simp [keys] at h2
          simp [keys, Ne.symm h1, h2] at ih ⊢
          exact ih
        · simp [keys] at h2
          simp [keys, Ne.symm h1, h2] at ih ⊢
          exact ih

theorem append_attr_keys_nodup {m : List (String × List Attribute)} (l : String)
    (a : Attribute) (h : (keys m).Nodup) : (keys (append_attr m l a)).Nodup := by
  rw [append_attr_keys]
  by_cases hl : l ∈ keys m
  · simp [hl, h]
  · simp [hl, List.nodup_append, h]

theorem build_attributes_map_dlookup {props : List PropRec}
    {m m1 : List (String × List Attribute)}
    (h : build_attributes_map props m = .ok m1) (k : String) :
    dlookup k m1 = combine_attr (dlookup k m) (expected_attributes k props) := by
  induction props generalizing m with
  | nil =>
      simp [build_attributes_map] at h
      subst h
      simp [expected_attributes, combine_attr_nil]
  | cons p rest ih =>
      rcases hnl : p.nodeLabels with _ | ⟨l, _ | ⟨l2, ls⟩⟩
      · simp only [build_attributes_map, hnl] at h
        rw [ih h]
        simp [expected_attributes, hnl]
      · rcases hpt : p.propertyTypes with _ | ⟨t, ts⟩
        · simp only [build_attributes_map, hnl, to_hume_type, hpt] at h
          exact Except.noConfusion h
        · simp only [build_attributes_map, hnl, to_hume_type, hpt] at h
          rw [ih h, append_attr_dlookup]
          by_cases hk : k = l
          · subst hk
            simp only [if_pos rfl]
            have hexp : expected_attributes k (p :: rest) =
                { label := p.propertyName, type := hume_type_of t } ::
                  expected_attributes k rest := by
              simp [expected_attributes, hnl, hpt]
            rw [hexp]
            cases ho : dlookup k m with
            | none => simp [combine_attr, hume_type_of]
            | some a => simp [combine_attr, hume_type_of]
          · simp only [if_neg hk]
            have hexp : expected_attributes k (p :: rest) = expected_attributes k rest := by
              simp [expected_attributes, hnl, hpt, Ne.symm hk]
            rw [hexp]
      · simp only [build_attributes_map, hnl] at h
        rw [ih h]
        simp [expected_attributes, hnl]

theorem build_attributes_map_ok {props : List PropRec}
    (m : List (String × List Attribute))
    (h : ∀ p ∈ props, p.propertyTypes ≠ []) :
    ∃ m1, build_attributes_map props m = .ok m1 := by
  induction props generalizing m with
  | nil => exact ⟨m, rfl⟩
  | cons p rest ih =>
      have hrest : ∀ p1 ∈ rest, p1.propertyTypes ≠ [] := fun p1 hp1 =>
        h p1 (List.mem_cons_of_mem _ hp1)
      rcases hnl : p.nodeLabels with _ | ⟨l, _ | ⟨l2, ls⟩⟩
      · simpa only [build_attributes_map, hnl] using ih _ hrest
      · rcases hpt : p.propertyTypes with _ | ⟨t, ts⟩
        · exact absurd hpt (h p (List.mem_cons_self _ _))
        · simpa only [build_attributes_map, hnl, to_hume_type, hpt] using ih _ hrest
      · simpa only [build_attributes_map, hnl] using ih _ hrest

theorem build_attributes_map_keys_nodup {props : List PropRec}
    {m m1 : List (String × List Attribute)}
    (h : build_attributes_map props m = .ok m1) (hnd : (keys m).Nodup) :
    (keys m1).Nodup := by
  induction props generalizing m with
  | nil =>
      simp [build_attributes_map] at h
      subst h
      exact hnd
  | cons p rest ih =>
      rcases hnl : p.nodeLabels with _ | ⟨l, _ | ⟨l2, ls⟩⟩
      · simp only [build_attributes_map, hnl] at h
        exact ih h hnd
      · rcases hpt : p.propertyTypes with _ | ⟨t, ts⟩
        · simp only [build_attributes_map, hnl, to_hume_type, hpt] at h
          exact Except.noConfusion h
        · simp only [build_attributes_map, hnl, to_hume_type, hpt] at h
          exact ih h (append_attr_keys_nodup _ _ hnd)
      · simp only [build_attributes_map, hnl] at h
        exact ih h hnd

theorem set_attributes_none_iff {m : List (String × Class)} {k : String}
    {attrs : List Attribute} :
    set_attributes m k attrs = none ↔ k ∉ keys m := by
  induction m with
  | nil => simp [set_attributes, keys]
  | cons e rest ih =>
      obtain ⟨k1, c⟩ := e
      by_cases hk : k1 = k
      · subst hk
        simp [set_attributes, keys]
      · rw [show keys ((k1, c) :: rest) = k1 :: keys rest from rfl]
        simp only [set_attributes, if_neg hk, List.mem_cons]
        cases hs : set_attributes rest k attrs with
        | none =>
            have hknotin := ih.mp hs
            simp [Ne.symm hk, hknotin]
        | some rest1 =>
            have hkin : k ∈ keys rest := by
              by_contra hc
              rw [← ih] at hc
              rw [hc] at hs
              cases hs
            simp [hkin]

theorem set_attributes_facts {m m1 : List (String × Class)} {k : String}
    {attrs : List Attribute} (h : set_attributes m k attrs = some m1) :
    m1.map strip_attributes = m.map strip_attributes ∧
      ∀ k1, dlookup k1 m1 =
        if k1 = k then (dlookup k m).map (fun c => { c with attributes := some attrs })
        else dlookup k1 m := by
  induction m generalizing m1 with
  | nil => simp [set_attributes] at h
  | cons e rest ih =>
      obtain ⟨kh, c⟩ := e
      by_cases hk : kh = k
      · subst hk
        have hse : set_attributes ((kh, c) :: rest) kh attrs =
            some ((kh, { c with attributes := some attrs }) :: rest) := by
          simp [set_attributes]
        rw [hse, Option.some.injEq] at h
        subst h
        constructor
        · simp [strip_attributes]
        · intro k1
          by_cases h1 : k1 = kh
          · subst h1
            simp [dlookup]
          · simp [dlookup, h1]
      · simp only [set_attributes, if_neg hk] at h
        cases hs : set_attributes rest k attrs with
        | none => rw [hs] at h; simp at h
        | some rest1 =>
            rw [hs] at h
            simp at h
            subst h
            obtain ⟨ihs, ihd⟩ := ih hs
            constructor
            · simp [List.map_cons, ihs]
            · intro k1
              by_cases h1 : k1 = kh
              · subst h1
                simp [dlookup, hk]
              · simp [dlookup, h1, ihd k1, Ne.symm hk]

theorem strip_keys {m m1 : List (String × Class)}
    (h : m1.map strip_attributes = m.map strip_attributes) : keys m1 = keys m := by
  have h1 := congrArg (List.map (fun x =>
    (x : String × String × Nat × (Nat × Nat) × String × String).1)) h
  simpa [keys, List.map_map, Function.comp, strip_attributes] using h1

theorem strip_uuids {m m1 : List (String × Class)}
    (h : m1.map strip_attributes = m.map strip_attributes) :
    m1.map (fun e => (e : String × Class).2.uuid) =
      m.map (fun e => (e : String × Class).2.uuid) := by
  have h1 := congrArg (List.map (fun x =>
    (x : String × String × Nat × (Nat × Nat) × String × String).2.2.1)) h
  simpa [List.map_map, Function.comp, strip_attributes] using h1

theorem strip_label_uuid {m m1 : List (String × Class)}
    (h : m1.map strip_attributes = m.map strip_attributes) :
    m1.map (fun e => ((e : String × Class).2.label, (e : String × Class).2.uuid)) =
      m.map (fun e => ((e : String × Class).2.label, (e : String × Class).2.uuid)) := by
  have h1 := congrArg (List.map (fun x =>
    ((x : String × String × Nat × (Nat × Nat) × String × String).2.1, x.2.2.1))) h
  simpa [List.map_map, Function.comp, strip_attributes] using h1

theorem assign_attributes_strip {m m1 : List (String × Class)}
    {amap : List (String × List Attribute)}
    (h : assign_attributes m amap = .ok m1) :
    m1.map strip_attributes = m.map strip_attributes := by
  induction amap generalizing m with
  | nil =>
      simp [assign_attributes] at h
      subst h
      rfl
  | cons e rest ih =>
      obtain ⟨k, attrs⟩ := e
      simp only [assign_attributes] at h
      cases hs : set_attributes m k attrs with
      | none => rw [hs] at h; simp at h
      | some m2 =>
          rw [hs] at h
          rw [ih h]
          exact (set_attributes_facts hs).1

theorem assign_attributes_dlookup {m m1 : List (String × Class)}
    {amap : List (String × List Attribute)} (hnd : (keys amap).Nodup)
    (h : assign_attributes m amap = .ok m1) (k : String) :
    dlookup k m1 =
      match dlookup k amap with
      | some attrs => (dlookup k m).map (fun c => { c with attributes := some attrs })
      | none => dlookup k m := by
  induction amap generalizing m with
  | nil =>
      simp [assign_attributes] at h
      subst h
      simp [dlookup]
  | cons e rest ih =>
      obtain ⟨k0, attrs0⟩ := e
      rw [show keys ((k0, attrs0) :: rest) = k0 :: keys rest from rfl,
        List.nodup_cons] at hnd
      simp only [assign_attributes] at h
      cases hs : set_attributes m k0 attrs0 with
      | none => rw [hs] at h; simp at h
      | some m2 =>
          rw [hs] at h
          obtain ⟨_, hd2⟩ := set_attributes_facts hs
          rw [ih hnd.2 h]
          by_cases hk : k = k0
          · subst hk
            have hnone : dlookup k rest = none := by
              cases hr : dlookup k rest with
              | none => rfl
              | some a =>
                  exact absurd ((mem_keys_iff_isSome rest k).mpr (by simp [hr])) hnd.1
            rw [hnone]
            simp [dlookup, hd2 k]
          · have hd : dlookup k ((k0, attrs0) :: rest) = dlookup k rest := by
              simp [dlookup, hk]
            rw [hd]
            cases hr : dlookup k rest with
            | none => simp [hd2 k, hk]
            | some a => simp [hd2 k, hk]

theorem assign_attributes_fail {m : List (String × Class)}
    {amap : List (String × List Attribute)} {l : String}
    (hl : l ∈ keys amap) (hnl : l ∉ keys m) :
    assign_attributes m amap = .error .consistencyError := by
  induction amap generalizing m with
  | nil => simp [keys] at hl
  | cons e rest ih =>
      obtain ⟨k0, attrs0⟩ := e
      cases hs : set_attributes m k0 attrs0 with
      | none => simp [assign_attributes, hs]
      | some m2 =>
          simp only [assign_attributes, hs]
          have hk0 : k0 ∈ keys m := by
            by_contra hc
            rw [← @set_attributes_none_iff m k0 attrs0] at hc
            rw [hc] at hs
            cases hs
          have hlk : l ≠ k0 := fun he => hnl (he ▸ hk0)
          have hll : l ∈ keys rest := by
            rcases (by simpa [keys] using hl : l = k0 ∨ l ∈ keys rest) with h1 | h1
            · exact absurd h1 hlk
            · exact h1
          have hkeys : keys m2 = keys m := strip_keys (set_attributes_facts hs).1
          exact ih hll (hkeys ▸ hnl)

/-! ## Unfolding the pipeline -/

theorem combine_attr_none_cons (x : Attribute) (l : List Attribute) :
    combine_attr none (x :: l) = some (x :: l) := rfl

theorem populate_schema_def (pos : Nat → Nat × Nat) (nodes : List NodeRec)
    (rels : List RelRec) (s : ConvState) :
    populate_schema pos nodes rels s =
      match process_rels rels [] (process_nodes pos nodes [] s).2 with
      | .error e => .error e
      | .ok (relationships, s2) =>
          .ok ((process_nodes pos nodes [] s).1, relationships, s2) := rfl

theorem convert_eq (pos : Nat → Nat × Nat) (nodes : List NodeRec)
    (rels : List RelRec) (props : List PropRec) :
    convert pos nodes rels props =
      match process_rels rels [] (process_nodes pos nodes []
          { counter := 0, class_uuid := [] }).2 with
      | .error e => .error e
      | .ok (relationships, _) =>
          match build_attributes_map props [] with
          | .error e => .error e
          | .ok amap =>
              match assign_attributes (process_nodes pos nodes []
                  { counter := 0, class_uuid := [] }).1 amap with
              | .error e => .error e
              | .ok classes1 =>
                  .ok { classes := classes1.map Prod.snd,
                        relationships := relationships.map Prod.snd } := by
  unfold convert collect_attributes
  rw [populate_schema_def]
  cases process_rels rels [] (process_nodes pos nodes []
      { counter := 0, class_uuid := [] }).2 with
  | error e => rfl
  | ok p =>
      obtain ⟨relationships, s2⟩ := p
      cases build_attributes_map props [] with
      | error e => rfl
      | ok amap => rfl

theorem convert_ok_parts {pos : Nat → Nat × Nat} {nodes : List NodeRec}
    {rels : List RelRec} {props : List PropRec} {sch : Schema}
    (h : convert pos nodes rels props = .ok sch) :
    ∃ relationships s2 amap classes1,
      process_rels rels [] (process_nodes pos nodes []
          { counter := 0, class_uuid := [] }).2 = .ok (relationships, s2) ∧
      build_attributes_map props [] = .ok amap ∧
      assign_attributes (process_nodes pos nodes []
          { counter := 0, class_uuid := [] }).1 amap = .ok classes1 ∧
      sch = { classes := classes1.map Prod.snd,
              relationships := relationships.map Prod.snd } := by
  rw [convert_eq] at h
  cases hr : process_rels rels [] (process_nodes pos nodes []
      { counter := 0, class_uuid := [] }).2 with
  | error e => rw [hr] at h; simp at h
  | ok p =>
      obtain ⟨relationships, s2⟩ := p
      rw [hr] at h
      simp only [] at h
      cases hb : build_attributes_map props [] with
      | error e => rw [hb] at h; simp at h
      | ok amap =>
          rw [hb] at h
          simp only [] at h
          cases ha : assign_attributes (process_nodes pos nodes []
              { counter := 0, class_uuid := [] }).1 amap with
          | error e => rw [ha] at h; simp at h
          | ok classes1 =>
              rw [ha] at h
              simp at h
              exact ⟨relationships, s2, amap, classes1, rfl, rfl, ha, h.symm⟩

theorem process_nodes_label_attrs (pos : Nat → Nat × Nat) (nodes : List NodeRec)
    (s : ConvState) :
    ∀ e ∈ (process_nodes pos nodes [] s).1,
      (e : String × Class).2.label = e.1 ∧ (e : String × Class).2.attributes = none := by
  intro e he
  rcases process_nodes_mem pos nodes [] s he with h | ⟨n, _, i, rfl⟩
  · simp at h
  · exact ⟨rfl, rfl⟩

/-- The central description of the classes of a successful run: each class
in the output document carries exactly the attribute list the property
records prescribe for its label, and no `attributes` entry at all when
that list is empty. -/
theorem convert_classes_spec {pos : Nat → Nat × Nat} {nodes : List NodeRec}
    {rels : List RelRec} {props : List PropRec} {sch : Schema}
    (h : convert pos nodes rels props = .ok sch) :
    ∀ c ∈ sch.classes,
      c.attributes = if expected_attributes c.label props = [] then none
        else some (expected_attributes c.label props) := by
  obtain ⟨relationships, s2, amap, classes1, _, hb, ha, hsch⟩ := convert_ok_parts h
  intro c hc
  rw [hsch] at hc
  simp only [List.mem_map] at hc
  obtain ⟨⟨k, cc⟩, hkc, hcc⟩ := hc
  have hcc2 : cc = c := hcc
  subst hcc2
  have hMnodup : (keys (process_nodes pos nodes []
      { counter := 0, class_uuid := [] }).1).Nodup :=
    process_nodes_keys_nodup _ _ _ _ (by simp [keys])
  have hamapnodup : (keys amap).Nodup :=
    build_attributes_map_keys_nodup hb (by simp [keys])
  have hkeys1 : keys classes1 = keys (process_nodes pos nodes []
      { counter := 0, class_uuid := [] }).1 :=
    strip_keys (assign_attributes_strip ha)
  have h1nodup : (keys classes1).Nodup := hkeys1 ▸ hMnodup
  have hdc : dlookup k classes1 = some cc := mem_dlookup_of_nodup h1nodup hkc
  have hda := assign_attributes_dlookup hamapnodup ha k
  have hdamap : dlookup k amap = combine_attr none (expected_attributes k props) := by
    have := build_attributes_map_dlookup hb k
    simpa [dlookup] using this
  have hkM : k ∈ keys (process_nodes pos nodes []
      { counter := 0, class_uuid := [] }).1 := by
    rw [← hkeys1, mem_keys_iff_isSome, hdc]
    rfl
  obtain ⟨c0, hc0⟩ : ∃ c0, dlookup k (process_nodes pos nodes []
      { counter := 0, class_uuid := [] }).1 = some c0 := by
    rw [mem_keys_iff_isSome] at hkM
    cases hM : dlookup k (process_nodes pos nodes []
        { counter := 0, class_uuid := [] }).1 with
    | none => rw [hM] at hkM; cases hkM
    | some c0 => exact ⟨c0, rfl⟩
  have hc0facts := process_nodes_label_attrs pos nodes _ _ (dlookup_mem hc0)
  cases hexp : expected_attributes k props with
  | nil =>
      rw [hexp] at hdamap
      rw [hdamap] at hda
      simp [combine_attr] at hda
      rw [hdc, hc0] at hda
      have hcc0 : cc = c0 := by
        simpa using hda
      subst hcc0
      have hlab : cc.label = k := hc0facts.1
      rw [hlab, hexp]
      simpa using hc0facts.2
  | cons x xs =>
      rw [hexp] at hdamap
      rw [combine_attr_none_cons] at hdamap
      rw [hdamap] at hda
      rw [hdc, hc0] at hda
      simp at hda
      have hlab : cc.label = k := by
        rw [hda]
        exact hc0facts.1
      rw [hlab, hexp]
      simp [hda]

theorem last_labeled_name {k : String} {nodes : List NodeRec} {i j : Nat} {n : NodeRec}
    (h : last_labeled k nodes i = some (n, j)) : n.name = k := by
  induction nodes generalizing i with
  | nil => simp [last_labeled] at h
  | cons n0 rest ih =>
      unfold last_labeled at h
      cases hl : last_labeled k rest (i + 1) with
      | some p =>
          rw [hl] at h
          simp at h
          rw [h] at hl
          exact ih hl
      | none =>
          rw [hl] at h
          by_cases hn : n0.name = k
          · simp [hn] at h
            rw [← h.1]
            exact hn
          · simp [hn] at h

theorem last_typed_name {k : String} {rels : List RelRec} {i j : Nat} {r : RelRec}
    (h : last_typed k rels i = some (r, j)) : r.type = k := by
  induction rels generalizing i with
  | nil => simp [last_typed] at h
  | cons r0 rest ih =>
      unfold last_typed at h
      cases hl : last_typed k rest (i + 1) with
      | some p =>
          rw [hl] at h
          simp at h
          rw [h] at hl
          exact ih hl
      | none =>
          rw [hl] at h
          by_cases hn : r0.type = k
          · simp [hn] at h
            rw [← h.1]
            exact hn
          · simp [hn] at h

theorem expected_attributes_type_mem (k : String) (props : List PropRec) :
    ∀ a ∈ expected_attributes k props, a.type ∈ HUME_TYPES := by
  intro a ha
  unfold expected_attributes at ha
  obtain ⟨p, hp, hpa⟩ := List.mem_filterMap.mp ha
  rcases hnl : p.nodeLabels with _ | ⟨l, _ | ⟨l2, ls⟩⟩ <;> rw [hnl] at hpa
  · simp at hpa
  · rcases hpt : p.propertyTypes with _ | ⟨t, ts⟩ <;> rw [hpt] at hpa
    · simp at hpa
    · by_cases hlk : l = k
      · simp [hlk] at hpa
        rw [← hpa]
        exact hume_type_of_mem t
      · simp [hlk] at hpa
  · simp at hpa

/-! ## The claims -/

/-- C1: for every property record with a non-empty list of observed types,
the resolved type is the `TYPES_MAPPING` lookup of the first observed type
with fallback `"STRING"`; and every attribute of every class of any
successful conversion carries a type from the target enumeration
{STRING, NUMBER, DOUBLE, DATE, BOOLEAN} and never any other string. -/
theorem c1_type_mapping :
    (∀ (p : PropRec) (t : String) (ts : List String), p.propertyTypes = t :: ts →
        to_hume_type p = .ok ((dlookup t TYPES_MAPPING).getD "STRING")) ∧
    (∀ (pos : Nat → Nat × Nat) (nodes : List NodeRec) (rels : List RelRec)
        (props : List PropRec) (sch : Schema), convert pos nodes rels props = .ok sch →
        ∀ c ∈ sch.classes, ∀ attrs, c.attributes = some attrs →
          ∀ a ∈ attrs, a.type ∈ HUME_TYPES) := by
  constructor
  · intro p t ts hpt
    simp [to_hume_type, hpt]
  · intro pos nodes rels props sch h c hcm attrs hattrs a ha
    have hspec := convert_classes_spec h c hcm
    rw [hattrs] at hspec
    by_cases hexp : expected_attributes c.label props = []
    · simp [hexp] at hspec
    · rw [if_neg hexp] at hspec
      rw [Option.some.injEq] at hspec
      subst hspec
      exact expected_attributes_type_mem c.label props a ha

/-- Witness for C1: the record of Scenario A resolves `Long` through the
table, and the `NUMBER` attribute of the produced class is in the
enumeration. -/
theorem c1_type_mapping_witness :
    to_hume_type ⟨["Person"], "age", "Node", ["Long"]⟩ =
      .ok ((dlookup "Long" TYPES_MAPPING).getD "STRING") ∧
    ("NUMBER" : String) ∈ HUME_TYPES := by
  constructor
  · exact c1_type_mapping.1 ⟨["Person"], "age", "Node", ["Long"]⟩ "Long" [] rfl
  · exact c1_type_mapping.2 cpos0 [⟨0, "Person"⟩] [] [⟨["Person"], "age", "Node", ["Long"]⟩]
      { classes := [{ label := "Person", canvasPosition := (100, 50),
                      icon := "mdi-circle-outline", color := "#aaa", uuid := 0,
                      attributes := some [{ label := "age", type := "NUMBER" }] }],
        relationships := [] } rfl
      { label := "Person", canvasPosition := (100, 50), icon := "mdi-circle-outline",
        color := "#aaa", uuid := 0, attributes := some [{ label := "age", type := "NUMBER" }] }
      (by simp) [{ label := "age", type := "NUMBER" }] rfl
      { label := "age", type := "NUMBER" } (by simp)

/-- C3: a relationship record whose source or target endpoint identity is
absent from the lookup table built from the node records makes the whole
run abort with the consistency error (the KeyError of `_make_rel`); no
output document is produced. -/
theorem c3_unknown_endpoint_aborts (pos : Nat → Nat × Nat) (nodes : List NodeRec)
    (rels : List RelRec) (props : List PropRec)
    (h : ∃ r ∈ rels, r.fromId ∉ nodes.map NodeRec.id ∨ r.toId ∉ nodes.map NodeRec.id) :
    convert pos nodes rels props = .error .consistencyError := by
  rw [convert_eq]
  have hfail : process_rels rels [] (process_nodes pos nodes []
      { counter := 0, class_uuid := [] }).2 = .error .consistencyError := by
    apply process_rels_fail
    obtain ⟨r, hr, hbad⟩ := h
    refine ⟨r, hr, ?_⟩
    rcases hbad with hb | hb
    · left
      rw [process_nodes_class_uuid_none]
      exact ⟨hb, rfl⟩
    · right
      rw [process_nodes_class_uuid_none]
      exact ⟨hb, rfl⟩
  rw [hfail]

/-- Witness for C3: one relationship record, no node records. -/
theorem c3_unknown_endpoint_aborts_witness :
    convert cpos0 [] [⟨0, "A", 0, "A", "R"⟩] [] = .error .consistencyError :=
  c3_unknown_endpoint_aborts cpos0 [] [⟨0, "A", 0, "A", "R"⟩] []
    ⟨⟨0, "A", 0, "A", "R"⟩, by simp, Or.inl (by simp)⟩

/-- C5: in a successful run, each class of the document carries exactly one
attribute per property record naming exactly its label (in record order,
named by the property name, typed by the resolved first observed type),
and nothing from records naming zero or several labels. -/
theorem c5_single_label_attributes (pos : Nat → Nat × Nat) (nodes : List NodeRec)
    (rels : List RelRec) (props : List PropRec) (sch : Schema)
    (h : convert pos nodes rels props = .ok sch) :
    ∀ c ∈ sch.classes, c.attributes.getD [] = expected_attributes c.label props := by
  intro c hc
  have hspec := convert_classes_spec h c hc
  by_cases hexp : expected_attributes c.label props = []
  · rw [if_pos hexp] at hspec
    rw [hspec, hexp]
    rfl
  · rw [if_neg hexp] at hspec
    rw [hspec]
    rfl

/-- Witness for C5: Scenario A, applied to the produced class. -/
theorem c5_single_label_attributes_witness :
    (some [{ label := "age", type := "NUMBER" }] : Option (List Attribute)).getD [] =
      expected_attributes "Person" [⟨["Person"], "age", "Node", ["Long"]⟩] :=
  c5_single_label_attributes cpos0 [⟨0, "Person"⟩] [] [⟨["Person"], "age", "Node", ["Long"]⟩]
    { classes := [{ label := "Person", canvasPosition := (100, 50),
                    icon := "mdi-circle-outline", color := "#aaa", uuid := 0,
                    attributes := some [{ label := "age", type := "NUMBER" }] }],
      relationships := [] } rfl
    { label := "Person", canvasPosition := (100, 50), icon := "mdi-circle-outline",
      color := "#aaa", uuid := 0, attributes := some [{ label := "age", type := "NUMBER" }] }
    (by simp)

/-- C7 counterexample: a node record with no property record addressing it
produces a class dict with no `attributes` entry at all (modelled as
`attributes = none`), so classes are not constructed with a present,
initially empty attribute list. -/
theorem c7_counterexample :
    convert cpos0 [⟨0, "Person"⟩] [] [] =
      .ok { classes := [{ label := "Person", canvasPosition := (100, 50),
                          icon := "mdi-circle-outline", color := "#aaa", uuid := 0,
                          attributes := none }],
            relationships := [] } ∧
    ({ label := "Person", canvasPosition := (100, 50), icon := "mdi-circle-outline",
       color := "#aaa", uuid := 0, attributes := none } : Class).attributes = none :=
  ⟨rfl, rfl⟩

/-- C7 amended: `_make_class` constructs every class without an
`attributes` entry, and in the final document a class carries an
`attributes` entry exactly when some property record naming exactly its
label was collected for it. -/
theorem c7_attributes_presence :
    (∀ (pos : Nat → Nat × Nat) (n : NodeRec) (s : ConvState),
        (make_class pos n s).1.attributes = none) ∧
    (∀ (pos : Nat → Nat × Nat) (nodes : List NodeRec) (rels : List RelRec)
        (props : List PropRec) (sch : Schema), convert pos nodes rels props = .ok sch →
        ∀ c ∈ sch.classes,
          (c.attributes.isSome ↔ expected_attributes c.label props ≠ [])) := by
  constructor
  · intro pos n s
    rfl
  · intro pos nodes rels props sch h c hcm
    have hspec := convert_classes_spec h c hcm
    by_cases hexp : expected_attributes c.label props = []
    · rw [if_pos hexp] at hspec
      simp [hspec, hexp]
    · rw [if_neg hexp] at hspec
      simp [hspec, hexp]

/-- Witness for C7 amended: a concrete class construction and the
Scenario A class. -/
theorem c7_attributes_presence_witness :
    (make_class cpos0 ⟨7, "X"⟩ { counter := 5, class_uuid := [] }).1.attributes = none ∧
    ((some [{ label := "age", type := "NUMBER" }] : Option (List Attribute)).isSome ↔
      expected_attributes "Person" [⟨["Person"], "age", "Node", ["Long"]⟩] ≠ []) :=
  ⟨c7_attributes_presence.1 cpos0 ⟨7, "X"⟩ { counter := 5, class_uuid := [] },
   c7_attributes_presence.2 cpos0 [⟨0, "Person"⟩] [] [⟨["Person"], "age", "Node", ["Long"]⟩]
     { classes := [{ label := "Person", canvasPosition := (100, 50),
                     icon := "mdi-circle-outline", color := "#aaa", uuid := 0,
                     attributes := some [{ label := "age", type := "NUMBER" }] }],
       relationships := [] } rfl
     { label := "Person", canvasPosition := (100, 50), icon := "mdi-circle-outline",
       color := "#aaa", uuid := 0, attributes := some [{ label := "age", type := "NUMBER" }] }
     (by simp)⟩

/-- C8: within one run the class identifiers are pairwise distinct: the
identifier list of the output classes has no duplicate. -/
theorem c8_uuid_unique (pos : Nat → Nat × Nat) (nodes : List NodeRec)
    (rels : List RelRec) (props : List PropRec) (sch : Schema)
    (h : convert pos nodes rels props = .ok sch) :
    (sch.classes.map Class.uuid).Nodup := by
  obtain ⟨relationships, s2, amap, classes1, _, hb, ha, hsch⟩ := convert_ok_parts h
  rw [hsch]
  have h1 : (List.map Prod.snd classes1).map Class.uuid =
      classes1.map (fun e => (e : String × Class).2.uuid) := by
    simp [List.map_map, Function.comp]
  show ((List.map Prod.snd classes1).map Class.uuid).Nodup
  rw [h1, strip_uuids (assign_attributes_strip ha)]
  exact process_nodes_uuid_nodup pos nodes [] _ (by simp) (by simp)

/-- Witness for C8: two distinct labels. -/
theorem c8_uuid_unique_witness :
    (({ classes := [{ label := "A", canvasPosition := (100, 50),
                      icon := "mdi-circle-outline", color := "#aaa", uuid := 0,
                      attributes := none },
                    { label := "B", canvasPosition := (100, 50),
                      icon := "mdi-circle-outline", color := "#aaa", uuid := 1,
                      attributes := none }],
        relationships := [] } : Schema).classes.map Class.uuid).Nodup :=
  c8_uuid_unique cpos0 [⟨0, "A"⟩, ⟨1, "B"⟩] [] [] _ rfl

/-- C10: attribute collection only ever writes the `attributes` entry: the
keyed classes agree, entry by entry, on key, label, identifier, canvas
position, icon and color before and after a non-aborting
`collect_attributes`. -/
theorem c10_collect_attributes_frame (props : List PropRec)
    (m m1 : List (String × Class)) (h : collect_attributes props m = .ok m1) :
    m1.map strip_attributes = m.map strip_attributes := by
  unfold collect_attributes at h
  cases hb : build_attributes_map props [] with
  | error e =>
      rw [hb] at h
      exact Except.noConfusion h
  | ok amap =>
      rw [hb] at h
      exact assign_attributes_strip h

/-- Witness for C10: one property record writing onto one class. -/
theorem c10_collect_attributes_frame_witness :
    (([("Person", { label := "Person", canvasPosition := (100, 50),
                    icon := "mdi-circle-outline", color := "#aaa", uuid := 0,
                    attributes := some [{ label := "age", type := "NUMBER" }] })] :
        List (String × Class)).map strip_attributes) =
      (([("Person", { label := "Person", canvasPosition := (100, 50),
                      icon := "mdi-circle-outline", color := "#aaa", uuid := 0,
                      attributes := none })] : List (String × Class)).map strip_attributes) :=
  c10_collect_attributes_frame [⟨["Person"], "age", "Node", ["Long"]⟩]
    [("Person", { label := "Person", canvasPosition := (100, 50),
                  icon := "mdi-circle-outline", color := "#aaa", uuid := 0,
                  attributes := none })]
    [("Person", { label := "Person", canvasPosition := (100, 50),
                  icon := "mdi-circle-outline", color := "#aaa", uuid := 0,
                  attributes := some [{ label := "age", type := "NUMBER" }] })] rfl

/-- C4: a property record naming exactly one owning label that is not the
label of any node record (so no class exists under that key) makes the
run abort with the consistency error (the KeyError of
`classes[key]["attributes"] = ...`); no attribute is ever attached to a
class that does not exist. Property records are assumed to carry at least
one observed type, as the introspection contract guarantees. -/
theorem c4_unknown_label_aborts (pos : Nat → Nat × Nat) (nodes : List NodeRec)
    (rels : List RelRec) (props : List PropRec)
    (hne : ∀ p ∈ props, p.propertyTypes ≠ [])
    (h : ∃ p ∈ props, ∃ l, p.nodeLabels = [l] ∧ l ∉ nodes.map NodeRec.name) :
    convert pos nodes rels props = .error .consistencyError := by
  rw [convert_eq]
  cases hr : process_rels rels [] (process_nodes pos nodes []
      { counter := 0, class_uuid := [] }).2 with
  | error e =>
      rw [show e = ConvError.consistencyError from process_rels_error hr]
  | ok p1 =>
      obtain ⟨relationships, s2⟩ := p1
      obtain ⟨amap, hamap⟩ := build_attributes_map_ok [] hne
      obtain ⟨p0, hp0, l, hnl, hlnot⟩ := h
      obtain ⟨t, ts, hpt⟩ : ∃ t ts, p0.propertyTypes = t :: ts := by
        cases hc : p0.propertyTypes with
        | nil => exact absurd hc (hne p0 hp0)
        | cons t ts => exact ⟨t, ts, rfl⟩
      have hlin : l ∈ keys amap := by
        rw [mem_keys_iff_isSome, build_attributes_map_dlookup hamap l]
        have hmem : ({ label := p0.propertyName, type := hume_type_of t } : Attribute) ∈
            expected_attributes l props := by
          apply List.mem_filterMap.mpr
          exact ⟨p0, hp0, by simp [hnl, hpt]⟩
        cases hE : expected_attributes l props with
        | nil => rw [hE] at hmem; cases hmem
        | cons x xs => simp [combine_attr, dlookup]
      have hlnotM : l ∉ keys (process_nodes pos nodes []
          { counter := 0, class_uuid := [] }).1 := by
        rw [process_nodes_keys_mem]
        simp [keys]
        intro x hx hxe
        exact hlnot (hxe ▸ List.mem_map_of_mem NodeRec.name hx)
      simp only [hamap, assign_attributes_fail hlin hlnotM]

/-- Witness for C4: a property record for a label with no node record. -/
theorem c4_unknown_label_aborts_witness :
    convert cpos0 [] [] [⟨["Ghost"], "p", "Node", ["Long"]⟩] =
      .error .consistencyError :=
  c4_unknown_label_aborts cpos0 [] [] [⟨["Ghost"], "p", "Node", ["Long"]⟩]
    (by simp) ⟨⟨["Ghost"], "p", "Node", ["Long"]⟩, by simp, "Ghost", rfl, by simp⟩

/-- C6: on a successful run the number of classes equals the number of
distinct node labels and the number of relationships the number of
distinct relationship types; on duplicates the later record wins: each
surviving class (relationship) is the one minted for the last record
bearing its label (type), as witnessed by its identifier being that
record's mint position. -/
theorem c6_counts_last_write_wins (pos : Nat → Nat × Nat) (nodes : List NodeRec)
    (rels : List RelRec) (props : List PropRec) (sch : Schema)
    (h : convert pos nodes rels props = .ok sch) :
    sch.classes.length = (nodes.map NodeRec.name).dedup.length ∧
    sch.relationships.length = (rels.map RelRec.type).dedup.length ∧
    (∀ c ∈ sch.classes, ∃ n i, last_labeled c.label nodes 0 = some (n, i) ∧
      n.name = c.label ∧ c.uuid = i) ∧
    (∀ r ∈ sch.relationships, ∃ rr i,
      last_typed r.label rels nodes.length = some (rr, i) ∧
      rr.type = r.label ∧ r.uuid = i) := by
  obtain ⟨R, s2, amap, classes1, hr, hb, ha, hsch⟩ := convert_ok_parts h
  subst hsch
  have hMnodup : (keys (process_nodes pos nodes []
      { counter := 0, class_uuid := [] }).1).Nodup :=
    process_nodes_keys_nodup _ _ _ _ (by simp [keys])
  have hkeys1 : keys classes1 = keys (process_nodes pos nodes []
      { counter := 0, class_uuid := [] }).1 :=
    strip_keys (assign_attributes_strip ha)
  have hRnodup : (keys R).Nodup := process_rels_keys_nodup hr (by simp [keys])
  have hcnt : (process_nodes pos nodes []
      { counter := 0, class_uuid := [] }).2.counter = nodes.length := by
    rw [process_nodes_counter]
    simp
  refine ⟨?_, ?_, ?_, ?_⟩
  · have h1 : (keys classes1).length = classes1.length := by simp [keys]
    have h2 : (keys classes1).Nodup := hkeys1 ▸ hMnodup
    have h3 : ∀ k, k ∈ keys classes1 ↔ k ∈ (nodes.map NodeRec.name).dedup := by
      intro k
      rw [hkeys1, process_nodes_keys_mem]
      simp [keys, List.mem_dedup]
    have h4 : (keys classes1).toFinset = ((nodes.map NodeRec.name).dedup).toFinset := by
      apply Finset.ext
      intro k
      simp [List.mem_toFinset, h3 k]
    have h5 : (keys classes1).length = ((nodes.map NodeRec.name).dedup).length := by
      rw [← List.toFinset_card_of_nodup h2, ← List.toFinset_card_of_nodup
        (List.nodup_dedup _), h4]
    show (List.map Prod.snd classes1).length = ((nodes.map NodeRec.name).dedup).length
    rw [List.length_map, ← h1, h5]
  · have h1 : (keys R).length = R.length := by simp [keys]
    have h3 : ∀ k, k ∈ keys R ↔ k ∈ (rels.map RelRec.type).dedup := by
      intro k
      rw [process_rels_keys_mem hr]
      simp [keys, List.mem_dedup]
    have h4 : (keys R).toFinset = ((rels.map RelRec.type).dedup).toFinset := by
      apply Finset.ext
      intro k
      simp [List.mem_toFinset, h3 k]
    have h5 : (keys R).length = ((rels.map RelRec.type).dedup).length := by
      rw [← List.toFinset_card_of_nodup hRnodup, ← List.toFinset_card_of_nodup
        (List.nodup_dedup _), h4]
    show (List.map Prod.snd R).length = ((rels.map RelRec.type).dedup).length
    rw [List.length_map, ← h1, h5]
  · intro c hc
    have hc : c ∈ List.map Prod.snd classes1 := hc
    have hlu : (c.label, c.uuid) ∈ (process_nodes pos nodes []
        { counter := 0, class_uuid := [] }).1.map
          (fun e => ((e : String × Class).2.label, (e : String × Class).2.uuid)) := by
      rw [← strip_label_uuid (assign_attributes_strip ha)]
      obtain ⟨e, he, hec⟩ := List.mem_map.mp hc
      exact List.mem_map.mpr ⟨e, he, by rw [hec]⟩
    obtain ⟨e, he, heq⟩ := List.mem_map.mp hlu
    have hlab : e.2.label = e.1 := (process_nodes_label_attrs pos nodes _ e he).1
    have hdl : dlookup e.1 (process_nodes pos nodes []
        { counter := 0, class_uuid := [] }).1 = some e.2 := by
      obtain ⟨k0, c0⟩ := e
      exact mem_dlookup_of_nodup hMnodup he
    rw [process_nodes_dlookup] at hdl
    have heq1 : e.2.label = c.label := congrArg Prod.fst heq
    have heq2 : e.2.uuid = c.uuid := congrArg Prod.snd heq
    cases hlast : last_labeled e.1 nodes (0 : Nat) with
    | none =>
        rw [hlast] at hdl
        simp [dlookup] at hdl
    | some p =>
        obtain ⟨n, i⟩ := p
        rw [hlast] at hdl
        simp at hdl
        refine ⟨n, i, ?_, ?_, ?_⟩
        · rw [← heq1, hlab]
          exact hlast
        · rw [last_labeled_name hlast, ← hlab, heq1]
        · rw [← heq2, ← hdl]
          rfl
  · intro r hrm
    have hrm : r ∈ List.map Prod.snd R := hrm
    obtain ⟨e, he, her⟩ := List.mem_map.mp hrm
    obtain ⟨t, rl⟩ := e
    have hrl : rl = r := her
    subst hrl
    have hdl : dlookup t R = some rl := mem_dlookup_of_nodup hRnodup he
    rcases process_rels_dlookup hr t with ⟨hn, hd⟩ | ⟨rr, i, rl2, hlt, hd, hu, hl2⟩
    · rw [hd] at hdl
      simp [dlookup] at hdl
    · rw [hd, Option.some.injEq] at hdl
      have hu2 : rl.uuid = i := by rw [← hdl]; exact hu
      have hlb : rl.label = rr.type := by rw [← hdl]; exact hl2
      have htype : rr.type = t := last_typed_name hlt
      rw [hcnt] at hlt
      refine ⟨rr, i, ?_, ?_, hu2⟩
      · rw [hlb, htype]
        exact hlt
      · rw [htype, hlb, htype]

/-- Witness for C6: duplicate labels and duplicate relationship types
collapse; the surviving class and relationship carry the identifiers
minted for the later records. -/
theorem c6_counts_last_write_wins_witness :
    ({ classes := [{ label := "A", canvasPosition := (100, 50),
                     icon := "mdi-circle-outline", color := "#aaa", uuid := 1,
                     attributes := none }],
       relationships := [⟨3, 1, "A", "A", 1, "R"⟩] } : Schema).classes.length =
      ([⟨0, "A"⟩, ⟨1, "A"⟩].map NodeRec.name).dedup.length ∧
    ({ classes := [{ label := "A", canvasPosition := (100, 50),
                     icon := "mdi-circle-outline", color := "#aaa", uuid := 1,
                     attributes := none }],
       relationships := [⟨3, 1, "A", "A", 1, "R"⟩] } : Schema).relationships.length =
      ([⟨0, "A", 0, "A", "R"⟩, ⟨1, "A", 1, "A", "R"⟩].map RelRec.type).dedup.length :=
  ⟨(c6_counts_last_write_wins cpos0 [⟨0, "A"⟩, ⟨1, "A"⟩]
      [⟨0, "A", 0, "A", "R"⟩, ⟨1, "A", 1, "A", "R"⟩] [] _ rfl).1,
   (c6_counts_last_write_wins cpos0 [⟨0, "A"⟩, ⟨1, "A"⟩]
      [⟨0, "A", 0, "A", "R"⟩, ⟨1, "A", 1, "A", "R"⟩] [] _ rfl).2.1⟩

/-- C2 counterexample: two node records with the same label `A` and a
relationship whose endpoints are the first of them. The second class
overwrites the first in the label-keyed class dict, but `_class_uuid`
still resolves the relationship endpoints to the dropped identifier 0:
the document's only class has identifier 1 while the relationship's
`start` and `endId` are 0, so the endpoints match no class in the
document. -/
theorem c2_counterexample :
    convert cpos0 [⟨0, "A"⟩, ⟨1, "A"⟩] [⟨0, "A", 0, "A", "R"⟩] [] =
      .ok { classes := [{ label := "A", canvasPosition := (100, 50),
                          icon := "mdi-circle-outline", color := "#aaa", uuid := 1,
                          attributes := none }],
            relationships := [⟨2, 0, "A", "A", 0, "R"⟩] } ∧
    (([{ label := "A", canvasPosition := (100, 50), icon := "mdi-circle-outline",
         color := "#aaa", uuid := 1, attributes := none }] : List Class).all
      fun c => c.uuid != (⟨2, 0, "A", "A", 0, "R"⟩ : Rel).start) = true :=
  ⟨rfl, rfl⟩

/-- C2 amended: when the node records carry pairwise distinct labels, both
endpoint identifiers of every relationship in the document equal the
identifier of some class present in the document. -/
theorem c2_endpoints_resolve (pos : Nat → Nat × Nat) (nodes : List NodeRec)
    (rels : List RelRec) (props : List PropRec) (sch : Schema)
    (hnd : (nodes.map NodeRec.name).Nodup)
    (h : convert pos nodes rels props = .ok sch) :
    ∀ r ∈ sch.relationships,
      (∃ c ∈ sch.classes, c.uuid = r.start) ∧ ∃ c ∈ sch.classes, c.uuid = r.endId := by
  obtain ⟨R, s2, amap, classes1, hr, hb, ha, hsch⟩ := convert_ok_parts h
  subst hsch
  intro r hrm
  have hrm : r ∈ List.map Prod.snd R := hrm
  obtain ⟨e, he, her⟩ := List.mem_map.mp hrm
  obtain ⟨t, rl⟩ := e
  have hrl : rl = r := her
  subst hrl
  have hgood := process_rels_mem_good hr (by simp) (t, rl) he
  obtain ⟨⟨pf, hpf, hpfv⟩, pt, hpt2, hptv⟩ := hgood
  have hcls := process_nodes_uuid_has_class pos nodes [] { counter := 0, class_uuid := [] }
    hnd (by simp [keys]) (by simp)
  have htrans : ∀ u : Nat,
      (∃ e1 ∈ (process_nodes pos nodes [] { counter := 0, class_uuid := [] }).1,
        (e1 : String × Class).2.uuid = u) →
      ∃ c ∈ List.map Prod.snd classes1, c.uuid = u := by
    intro u hu
    obtain ⟨e1, he1, hu1⟩ := hu
    have hmm : u ∈ classes1.map (fun e => (e : String × Class).2.uuid) := by
      rw [strip_uuids (assign_attributes_strip ha)]
      exact List.mem_map.mpr ⟨e1, he1, hu1⟩
    obtain ⟨e3, he3, hv3⟩ := List.mem_map.mp hmm
    exact ⟨e3.2, List.mem_map.mpr ⟨e3, he3, rfl⟩, hv3⟩
  constructor
  · exact htrans rl.start (by
      obtain ⟨e1, he1, hu1⟩ := hcls pf hpf
      exact ⟨e1, he1, by rw [hu1, hpfv]⟩)
  · exact htrans rl.endId (by
      obtain ⟨e1, he1, hu1⟩ := hcls pt hpt2
      exact ⟨e1, he1, by rw [hu1, hptv]⟩)

/-- Witness for C2 amended: two distinctly labeled nodes and one
relationship between them. -/
theorem c2_endpoints_resolve_witness :
    (∃ c ∈ ({ classes := [{ label := "A", canvasPosition := (100, 50),
                            icon := "mdi-circle-outline", color := "#aaa", uuid := 0,
                            attributes := none },
                          { label := "B", canvasPosition := (100, 50),
                            icon := "mdi-circle-outline", color := "#aaa", uuid := 1,
                            attributes := none }],
              relationships := [⟨2, 0, "A", "B", 1, "R"⟩] } : Schema).classes,
        c.uuid = (⟨2, 0, "A", "B", 1, "R"⟩ : Rel).start) ∧
      ∃ c ∈ ({ classes := [{ label := "A", canvasPosition := (100, 50),
                             icon := "mdi-circle-outline", color := "#aaa", uuid := 0,
                             attributes := none },
                           { label := "B", canvasPosition := (100, 50),
                             icon := "mdi-circle-outline", color := "#aaa", uuid := 1,
                             attributes := none }],
               relationships := [⟨2, 0, "A", "B", 1, "R"⟩] } : Schema).classes,
        c.uuid = (⟨2, 0, "A", "B", 1, "R"⟩ : Rel).endId :=
  c2_endpoints_resolve cpos0 [⟨0, "A"⟩, ⟨1, "B"⟩] [⟨0, "A", 1, "B", "R"⟩] []
    { classes := [{ label := "A", canvasPosition := (100, 50),
                    icon := "mdi-circle-outline", color := "#aaa", uuid := 0,
                    attributes := none },
                  { label := "B", canvasPosition := (100, 50),
                    icon := "mdi-circle-outline", color := "#aaa", uuid := 1,
                    attributes := none }],
      relationships := [⟨2, 0, "A", "B", 1, "R"⟩] }
    (by decide) rfl ⟨2, 0, "A", "B", 1, "R"⟩ (by simp)

/-- C9: Scenario A: one `Person` node record, no relationship records, one
property record `age : Long` on `Person`; the document has exactly one
class labeled `Person` with attribute list exactly
`[{label: age, type: NUMBER}]` and an empty relationship list. -/
theorem c9_scenario_a :
    convert cpos0 [⟨0, "Person"⟩] [] [⟨["Person"], "age", "Node", ["Long"]⟩] =
      .ok { classes := [{ label := "Person", canvasPosition := (100, 50),
                          icon := "mdi-circle-outline", color := "#aaa", uuid := 0,
                          attributes := some [{ label := "age", type := "NUMBER" }] }],
            relationships := [] } := rfl

end HumeSchema
